import Mathlib

/-!
Shallow embedding of the pykernels kernel catalog (src/pykernels/regular.py).

Feature matrices are modelled as a shape together with a total entry function
over the reals; every kernel's `_compute` routine is translated directly from
the Python source.  The kernels whose bandwidth parameter may be lazily
defaulted (`Exponential`, `Laplacian`, `Cauchy`) take their `_sigma` field as
explicit state and return the updated field next to the result.  The
positive-only kernels return `Except String` mirroring the `raise Exception`
path of the source.  `utils.euclidean_dist_matrix` is not under src/, so it is
modelled from the spec (section 4.1).
-/

namespace Pykernels

/-- A 2-D numeric array: `rows` samples, `cols` features; `entry i k` is the
value at row `i`, column `k` (values outside the bounds are irrelevant). -/
structure Mat where
  rows : ℕ
  cols : ℕ
  entry : ℕ → ℕ → ℝ

/-- Build a `Mat` from a list of rows (row-major literals, as in the spec's
concrete scenarios). -/
def matOf (xs : List (List ℝ)) : Mat :=
  ⟨xs.length, (xs.headD []).length, fun i k => (xs.getD i []).getD k 0⟩

/-- Modelled from the spec: `utils.euclidean_dist_matrix` (file utils.py is
absent from src/).  Spec 4.1: D[i,j] is the squared Euclidean distance between
row i of A and row j of B, computed with the expansion ‖a‖² + ‖b‖² − 2·a·b. -/
def euclidean_dist_matrix (A B : Mat) (i j : ℕ) : ℝ :=
  (∑ k in Finset.range A.cols, A.entry i k ^ 2)
    + (∑ k in Finset.range A.cols, B.entry j k ^ 2)
    - 2 * ∑ k in Finset.range A.cols, A.entry i k * B.entry j k

/-- The sentinel values returned by the kernels' `dim` methods: `np.inf`
(infinite feature space) or `None` (unknown / no closed form). -/
inductive Dim where
  | infinite : Dim
  | unknown : Dim
  deriving DecidableEq

/-- `Exponential.__init__` (regular.py lines 23-27): a supplied sigma is stored
as `2 * sigma ** 2`; an unset sigma is stored as `None`. -/
def Exponential.init (sigma : Option ℝ) : Option ℝ :=
  sigma.map fun s => 2 * s ^ 2

/-- `Exponential._compute` (regular.py lines 29-35): when `_sigma` is `None`
it is first set to `float(data_1.shape[1])`; the result is
`np.exp(-np.sqrt(dists_sq) / self._sigma)`.  The updated `_sigma` field is
returned next to the result matrix. -/
noncomputable def Exponential.compute (sigma : Option ℝ) (data_1 data_2 : Mat) :
    Option ℝ × (ℕ → ℕ → ℝ) :=
  let s : ℝ := sigma.getD (data_1.cols : ℝ)
  (some s, fun i j =>
    Real.exp (-Real.sqrt (euclidean_dist_matrix data_1 data_2 i j) / s))

/-- `Exponential.dim` (regular.py lines 37-38): `np.inf`. -/
def Exponential.dim : Dim := Dim.infinite

/-- `Laplacian.__init__` (regular.py lines 51-52): stores the raw sigma
(possibly `None`), with no squaring transform. -/
def Laplacian.init (sigma : Option ℝ) : Option ℝ := sigma

/-- `Laplacian` inherits `_compute` from `Exponential` (regular.py line 41). -/
noncomputable def Laplacian.compute : Option ℝ → Mat → Mat → Option ℝ × (ℕ → ℕ → ℝ) :=
  Exponential.compute

/-- `Laplacian` inherits `dim` from `Exponential`. -/
def Laplacian.dim : Dim := Exponential.dim

/-- `Cauchy.__init__` (regular.py lines 120-124): a supplied sigma is stored
squared; an unset sigma is stored as `None`. -/
def Cauchy.init (sigma : Option ℝ) : Option ℝ :=
  sigma.map fun s => s ^ 2

/-- `Cauchy._compute` (regular.py lines 126-133): when `_sigma` is `None` it
is first set to `float(data_1.shape[1])`; the result is
`1 / (1 + dists_sq / self._sigma)`. -/
noncomputable def Cauchy.compute (sigma : Option ℝ) (data_1 data_2 : Mat) :
    Option ℝ × (ℕ → ℕ → ℝ) :=
  let s : ℝ := sigma.getD (data_1.cols : ℝ)
  (some s, fun i j => 1 / (1 + euclidean_dist_matrix data_1 data_2 i j / s))

/-- `Cauchy.dim` (regular.py lines 135-136): `np.inf`. -/
def Cauchy.dim : Dim := Dim.infinite

/-- `RationalQuadratic._compute` (regular.py lines 69-72):
`1. - (dists_sq / (dists_sq + self._c))`. -/
noncomputable def RationalQuadratic.compute (c : ℝ) (data_1 data_2 : Mat) :
    ℕ → ℕ → ℝ :=
  fun i j =>
    let dists_sq := euclidean_dist_matrix data_1 data_2 i j
    1 - dists_sq / (dists_sq + c)

/-- `RationalQuadratic.dim` (regular.py lines 74-75): `None`. -/
def RationalQuadratic.dim : Dim := Dim.unknown

/-- `InverseMultiquadratic.__init__` (regular.py lines 93-94): stores `c ** 2`. -/
def InverseMultiquadratic.init (c : ℝ) : ℝ := c ^ 2

/-- `InverseMultiquadratic._compute` (regular.py lines 96-99):
`1. / np.sqrt(dists_sq + self._c)` where the stored `_c` is the squared
construction argument. -/
noncomputable def InverseMultiquadratic.compute (c : ℝ) (data_1 data_2 : Mat) :
    ℕ → ℕ → ℝ :=
  fun i j => 1 / Real.sqrt (euclidean_dist_matrix data_1 data_2 i j + c)

/-- `InverseMultiquadratic.dim` (regular.py lines 101-102): `np.inf`. -/
def InverseMultiquadratic.dim : Dim := Dim.infinite

/-- `TStudent._compute` (regular.py lines 159-162):
`1 / (1 + np.sqrt(dists_sq) ** self._d)`. -/
noncomputable def TStudent.compute (d : ℝ) (data_1 data_2 : Mat) :
    ℕ → ℕ → ℝ :=
  fun i j =>
    1 / (1 + Real.sqrt (euclidean_dist_matrix data_1 data_2 i j) ^ d)

/-- `TStudent.dim` (regular.py lines 164-165): `None`. -/
def TStudent.dim : Dim := Dim.unknown

/-- `ANOVA._compute` (regular.py lines 185-194): accumulates
`np.exp(-sigma * (x_k - y_k) ** 2) ** d` over the feature columns of
`data_1`. -/
noncomputable def ANOVA.compute (sigma d : ℝ) (data_1 data_2 : Mat) :
    ℕ → ℕ → ℝ :=
  fun i j =>
    ∑ k in Finset.range data_1.cols,
      Real.exp (-sigma * (data_1.entry i k - data_2.entry j k) ^ 2) ^ d

/-- `ANOVA.dim` (regular.py lines 196-197): `None`. -/
def ANOVA.dim : Dim := Dim.unknown

/-- `np.any(data < 0)`: some in-bounds entry of the array is negative. -/
def hasNeg (A : Mat) : Prop :=
  ∃ i < A.rows, ∃ k < A.cols, A.entry i k < 0

/-- The matrix accumulated by `AdditiveChi2._compute` once validation passed
(regular.py lines 226-233): per column, `2 * x_k * y_k / (x_k + y_k)`. -/
noncomputable def AdditiveChi2.mat (data_1 data_2 : Mat) : ℕ → ℕ → ℝ :=
  fun i j =>
    ∑ k in Finset.range data_1.cols,
      2 * (data_1.entry i k * data_2.entry j k)
        / (data_1.entry i k + data_2.entry j k)

open Classical in
/-- `AdditiveChi2._compute` (regular.py lines 221-233): raises when any entry
of either input is negative, otherwise returns the accumulated matrix. -/
noncomputable def AdditiveChi2.compute (data_1 data_2 : Mat) :
    Except String (ℕ → ℕ → ℝ) :=
  if hasNeg data_1 ∨ hasNeg data_2 then
    Except.error "Additive Chi^2 kernel requires data to be strictly positive!"
  else
    Except.ok (AdditiveChi2.mat data_1 data_2)

/-- `AdditiveChi2.dim` (regular.py lines 235-236): `None`. -/
def AdditiveChi2.dim : Dim := Dim.unknown

/-- The matrix accumulated by `Chi2._compute` once validation passed
(regular.py lines 259-266): `np.exp(-gamma * kernel)` where `kernel` sums
`(x_k - y_k) ** 2 / (x_k + y_k)` over the feature columns. -/
noncomputable def Chi2.mat (gamma : ℝ) (data_1 data_2 : Mat) : ℕ → ℕ → ℝ :=
  fun i j =>
    Real.exp (-gamma *
      ∑ k in Finset.range data_1.cols,
        (data_1.entry i k - data_2.entry j k) ^ 2
          / (data_1.entry i k + data_2.entry j k))

open Classical in
/-- `Chi2._compute` (regular.py lines 254-266): raises when any entry of
either input is negative (with the same message as AdditiveChi2, copied in the
source), otherwise returns the accumulated matrix. -/
noncomputable def Chi2.compute (gamma : ℝ) (data_1 data_2 : Mat) :
    Except String (ℕ → ℕ → ℝ) :=
  if hasNeg data_1 ∨ hasNeg data_2 then
    Except.error "Additive Chi^2 kernel requires data to be strictly positive!"
  else
    Except.ok (Chi2.mat gamma data_1 data_2)

/-- `Chi2.dim` (regular.py lines 268-269): `None`. -/
def Chi2.dim : Dim := Dim.unknown

/-- The matrix accumulated by `Min._compute` once validation passed
(regular.py lines 283-290): per column, `np.minimum(x_k, y_k)`. -/
noncomputable def Min.mat (data_1 data_2 : Mat) : ℕ → ℕ → ℝ :=
  fun i j =>
    ∑ k in Finset.range data_1.cols, min (data_1.entry i k) (data_2.entry j k)

open Classical in
/-- `Min._compute` (regular.py lines 278-290): raises when any entry of either
input is negative, otherwise returns the accumulated matrix. -/
noncomputable def Min.compute (data_1 data_2 : Mat) :
    Except String (ℕ → ℕ → ℝ) :=
  if hasNeg data_1 ∨ hasNeg data_2 then
    Except.error "Min kernel requires data to be strictly positive!"
  else
    Except.ok (Min.mat data_1 data_2)

/-- `Min.dim` (regular.py lines 292-293): `None`. -/
def Min.dim : Dim := Dim.unknown

/-- `np.abs(data) ** alpha` applied entrywise, as in
`GeneralizedHistogramIntersection._compute`. -/
noncomputable def absPow (alpha : ℝ) (A : Mat) : Mat :=
  ⟨A.rows, A.cols, fun i k => |A.entry i k| ^ alpha⟩

/-- `GeneralizedHistogramIntersection._compute` (regular.py lines 311-314):
delegates to `Min()._compute` on the absolute values of the inputs raised to
the power `alpha`. -/
noncomputable def GeneralizedHistogramIntersection.compute (alpha : ℝ)
    (data_1 data_2 : Mat) : Except String (ℕ → ℕ → ℝ) :=
  Min.compute (absPow alpha data_1) (absPow alpha data_2)

/-- `GeneralizedHistogramIntersection.dim` (regular.py lines 316-317): `None`. -/
def GeneralizedHistogramIntersection.dim : Dim := Dim.unknown

/-- `Log._compute` (regular.py lines 337-338):
`-np.log(dists_sq ** self._d / 2. + 1)`. -/
noncomputable def Log.compute (d : ℝ) (data_1 data_2 : Mat) : ℕ → ℕ → ℝ :=
  fun i j =>
    -Real.log (euclidean_dist_matrix data_1 data_2 i j ^ d / 2 + 1)

/-- `Log.dim` (regular.py lines 340-341): `None`. -/
def Log.dim : Dim := Dim.unknown

/-- `Power._compute` (regular.py lines 359-360):
`- euclidean_dist_matrix(data_1, data_2) ** self._d / 2.`. -/
noncomputable def Power.compute (d : ℝ) (data_1 data_2 : Mat) : ℕ → ℕ → ℝ :=
  fun i j => -euclidean_dist_matrix data_1 data_2 i j ^ d / 2

/-- `Power.dim` (regular.py lines 362-363): `None`. -/
def Power.dim : Dim := Dim.unknown

/-! Helper lemmas about the distance utility. -/

/-- The expansion used by the distance utility agrees with the direct sum of
squared coordinate differences. -/
theorem dist_eq_sum_sq (A B : Mat) (i j : ℕ) :
    euclidean_dist_matrix A B i j
      = ∑ k in Finset.range A.cols, (A.entry i k - B.entry j k) ^ 2 := by
  unfold euclidean_dist_matrix
  rw [Finset.mul_sum, ← Finset.sum_add_distrib, ← Finset.sum_sub_distrib]
  exact Finset.sum_congr rfl fun k _ => by ring

/-- The distance matrix is symmetric under swapping the two inputs, provided
they have the same number of feature columns. -/
theorem dist_symm (A B : Mat) (h : A.cols = B.cols) (i j : ℕ) :
    euclidean_dist_matrix A B i j = euclidean_dist_matrix B A j i := by
  rw [dist_eq_sum_sq, dist_eq_sum_sq, h]
  exact Finset.sum_congr rfl fun k _ => by ring

/-- Squared distances are non-negative, so the square roots taken downstream
never see a negative argument in the exact-arithmetic model. -/
theorem dist_nonneg (A B : Mat) (i j : ℕ) :
    0 ≤ euclidean_dist_matrix A B i j := by
  rw [dist_eq_sum_sq]
  exact Finset.sum_nonneg fun k _ => sq_nonneg _

/-! Claim theorems. -/

/-- C1 (amended): when sigma is unset, `Exponential._compute` lazily stores the
raw column count d of the first input (not the transformed form 2·d²), so the
result is exp(−sqrt(D)/d) elementwise; likewise `Cauchy._compute` stores the
raw column count (not its square), so its result is 1/(1 + D/d) elementwise. -/
theorem exponential_cauchy_lazy_default_raw :
    ∀ A B : Mat,
      (Exponential.compute none A B).1 = some ((A.cols : ℝ)) ∧
      (∀ i j : ℕ, (Exponential.compute none A B).2 i j
          = Real.exp (-Real.sqrt (euclidean_dist_matrix A B i j) / (A.cols : ℝ))) ∧
      (Cauchy.compute none A B).1 = some ((A.cols : ℝ)) ∧
      (∀ i j : ℕ, (Cauchy.compute none A B).2 i j
          = 1 / (1 + euclidean_dist_matrix A B i j / (A.cols : ℝ))) :=
  fun _ _ => ⟨rfl, fun _ _ => rfl, rfl, fun _ _ => rfl⟩

/-- C1 counterexample: with sigma unset, Cauchy on 2-column inputs divides the
squared distance by the raw column count 2 (entry 1/2), not by its square 4 as
the claimed formula 1/(1 + D/d²) would give (entry 2/3); and Exponential on a
1-column input divides by the raw column count 1 (entry exp(−1)), not by
2·d² = 2 as the claimed formula exp(−sqrt(D)/(2·d²)) would give (exp(−1/2)). -/
theorem lazy_default_counterexample :
    ¬ ((Cauchy.compute none (matOf [[0, 0]]) (matOf [[1, 1]])).2 0 0
        = 1 / (1 + euclidean_dist_matrix (matOf [[0, 0]]) (matOf [[1, 1]]) 0 0
            / ((matOf [[0, 0]]).cols : ℝ) ^ 2)) ∧
    ¬ ((Exponential.compute none (matOf [[0]]) (matOf [[1]])).2 0 0
        = Real.exp (-Real.sqrt
            (euclidean_dist_matrix (matOf [[0]]) (matOf [[1]]) 0 0)
          / (2 * ((matOf [[0]]).cols : ℝ) ^ 2))) := by
  constructor
  · have hD : euclidean_dist_matrix (matOf [[0, 0]]) (matOf [[1, 1]]) 0 0 = 2 := by
      simp [euclidean_dist_matrix, matOf, Finset.sum_range_succ, List.getD]
      norm_num
    have hc : ((matOf [[0, 0]]).cols : ℝ) = 2 := by
      simp [matOf]
    show ¬ (1 / (1 + euclidean_dist_matrix (matOf [[0, 0]]) (matOf [[1, 1]]) 0 0
        / ((matOf [[0, 0]]).cols : ℝ)) = _)
    rw [hD, hc]
    norm_num
  · have hD : euclidean_dist_matrix (matOf [[0]]) (matOf [[1]]) 0 0 = 1 := by
      simp [euclidean_dist_matrix, matOf, Finset.sum_range_succ, List.getD]
    have hc : ((matOf [[0]]).cols : ℝ) = 1 := by
      simp [matOf]
    show ¬ (Real.exp (-Real.sqrt
          (euclidean_dist_matrix (matOf [[0]]) (matOf [[1]]) 0 0)
        / ((matOf [[0]]).cols : ℝ)) = _)
    rw [hD, hc, Real.sqrt_one]
    intro hcontra
    rw [Real.exp_eq_exp] at hcontra
    norm_num at hcontra

/-- C3: Laplacian reuses Exponential's compute routine verbatim, its
constructor stores the supplied sigma raw (no squaring transform), and for an
explicitly supplied sigma the result is exp(−sqrt(D)/s) elementwise, i.e.
Exponential's routine evaluated with stored parameter s. -/
theorem laplacian_specializes_exponential :
    Laplacian.compute = Exponential.compute ∧
    (∀ s : ℝ, Laplacian.init (some s) = some s) ∧
    (∀ (s : ℝ) (A B : Mat) (i j : ℕ),
      (Laplacian.compute (Laplacian.init (some s)) A B).2 i j
        = Real.exp (-Real.sqrt (euclidean_dist_matrix A B i j) / s)) ∧
    (∀ (s : ℝ) (A B : Mat),
      Laplacian.compute (Laplacian.init (some s)) A B
        = Exponential.compute (some s) A B) :=
  ⟨rfl, fun _ => rfl, fun _ _ _ _ _ => rfl, fun _ _ _ => rfl⟩

/-- C4 (amended): a Laplacian constructed with sigma unset inherits
Exponential's lazy heuristic: on first compute, sigma IS derived from the
number of feature columns of the first input (stored raw), and the result is
exp(−sqrt(D)/d) elementwise. -/
theorem laplacian_lazy_heuristic_applies :
    ∀ A B : Mat,
      Laplacian.init none = none ∧
      (Laplacian.compute (Laplacian.init none) A B).1 = some ((A.cols : ℝ)) ∧
      (∀ i j : ℕ, (Laplacian.compute (Laplacian.init none) A B).2 i j
          = Real.exp (-Real.sqrt (euclidean_dist_matrix A B i j) / (A.cols : ℝ))) :=
  fun _ _ => ⟨rfl, rfl, fun _ _ => rfl⟩

/-- C4 counterexample: calling compute on a Laplacian constructed with sigma
unset, on a 2-column input, leaves the sigma field set to the column count 2 —
so the lazy default heuristic is applied, contrary to the claim. -/
theorem laplacian_no_heuristic_counterexample :
    (Laplacian.compute (Laplacian.init none) (matOf [[0, 0]]) (matOf [[0, 0]])).1
        = some ((matOf [[0, 0]]).cols : ℝ) ∧
      ((matOf [[0, 0]]).cols : ℝ) = 2 ∧
      (Laplacian.compute (Laplacian.init none) (matOf [[0, 0]]) (matOf [[0, 0]])).1
        ≠ none := by
  refine ⟨rfl, by simp [matOf], ?_⟩
  intro hcontra
  exact Option.some_ne_none _ hcontra

/-- C5: Power(d).compute is −D^d/2 elementwise, and on the concrete scenario
with rows [0,0] and [3,4] the squared distance is 25 and the returned single
entry is −625/2 = −312.5. -/
theorem power_formula_and_scenario :
    euclidean_dist_matrix (matOf [[0, 0]]) (matOf [[3, 4]]) 0 0 = 25 ∧
    Power.compute 2 (matOf [[0, 0]]) (matOf [[3, 4]]) 0 0 = -312.5 ∧
    (∀ (d : ℝ) (A B : Mat) (i j : ℕ),
      Power.compute d A B i j = -euclidean_dist_matrix A B i j ^ d / 2) := by
  have hD : euclidean_dist_matrix (matOf [[0, 0]]) (matOf [[3, 4]]) 0 0 = 25 := by
    simp [euclidean_dist_matrix, matOf, Finset.sum_range_succ, List.getD]
    norm_num
  refine ⟨hD, ?_, fun _ _ _ _ _ => rfl⟩
  show -euclidean_dist_matrix (matOf [[0, 0]]) (matOf [[3, 4]]) 0 0 ^ (2 : ℝ) / 2
      = -312.5
  rw [hD, show (2 : ℝ) = ((2 : ℕ) : ℝ) by norm_num, Real.rpow_natCast]
  norm_num

/-- C8: the only instance field ever written by a compute call is the lazily
defaulted sigma of Exponential/Laplacian/Cauchy: after any call the field holds
exactly the prior sigma if it was set, else the column count of the first
input; in particular a call with sigma already set leaves it unchanged, a
second call never changes the field written by the first, and Laplacian shares
Exponential's routine. -/
theorem compute_state_frame :
    (∀ (sigma : Option ℝ) (A B : Mat),
      (Exponential.compute sigma A B).1 = some (sigma.getD ((A.cols : ℝ))) ∧
      (Cauchy.compute sigma A B).1 = some (sigma.getD ((A.cols : ℝ)))) ∧
    (∀ (s : ℝ) (A B : Mat),
      (Exponential.compute (some s) A B).1 = some s ∧
      (Cauchy.compute (some s) A B).1 = some s) ∧
    (∀ (sigma : Option ℝ) (A B C D : Mat),
      (Exponential.compute (Exponential.compute sigma A B).1 C D).1
          = (Exponential.compute sigma A B).1 ∧
      (Cauchy.compute (Cauchy.compute sigma A B).1 C D).1
          = (Cauchy.compute sigma A B).1) ∧
    Laplacian.compute = Exponential.compute :=
  ⟨fun _ _ _ => ⟨rfl, rfl⟩, fun _ _ _ => ⟨rfl, rfl⟩,
    fun _ _ _ _ _ => ⟨rfl, rfl⟩, rfl⟩

/-- C10: the dim() declarations are constants: np.inf (infinite) for
Exponential, Laplacian, InverseMultiquadratic and Cauchy; None (unknown) for
RationalQuadratic, TStudent, Log, Power, ANOVA, AdditiveChi2, Chi2, Min and
GeneralizedHistogramIntersection. -/
theorem dim_constants :
    Exponential.dim = Dim.infinite ∧ Laplacian.dim = Dim.infinite ∧
    InverseMultiquadratic.dim = Dim.infinite ∧ Cauchy.dim = Dim.infinite ∧
    RationalQuadratic.dim = Dim.unknown ∧ TStudent.dim = Dim.unknown ∧
    Log.dim = Dim.unknown ∧ Power.dim = Dim.unknown ∧
    ANOVA.dim = Dim.unknown ∧ AdditiveChi2.dim = Dim.unknown ∧
    Chi2.dim = Dim.unknown ∧ Min.dim = Dim.unknown ∧
    GeneralizedHistogramIntersection.dim = Dim.unknown :=
  ⟨rfl, rfl, rfl, rfl, rfl, rfl, rfl, rfl, rfl, rfl, rfl, rfl, rfl⟩

/-- C2: AdditiveChi2, Chi2 and Min fail with their domain error exactly when
some entry of either input is negative, and when every entry of both inputs is
non-negative each returns the complete accumulated matrix — the result is
either the error or the whole matrix, never a partial one. -/
theorem positive_kernels_domain_validation :
    ∀ A B : Mat,
      ((AdditiveChi2.compute A B = Except.error
          "Additive Chi^2 kernel requires data to be strictly positive!")
        ↔ (hasNeg A ∨ hasNeg B)) ∧
      (∀ gamma : ℝ, (Chi2.compute gamma A B = Except.error
          "Additive Chi^2 kernel requires data to be strictly positive!")
        ↔ (hasNeg A ∨ hasNeg B)) ∧
      ((Min.compute A B = Except.error
          "Min kernel requires data to be strictly positive!")
        ↔ (hasNeg A ∨ hasNeg B)) ∧
      (¬(hasNeg A ∨ hasNeg B) →
        AdditiveChi2.compute A B = Except.ok (AdditiveChi2.mat A B) ∧
        (∀ gamma : ℝ, Chi2.compute gamma A B = Except.ok (Chi2.mat gamma A B)) ∧
        Min.compute A B = Except.ok (Min.mat A B)) := by
  intro A B
  by_cases h : hasNeg A ∨ hasNeg B
  · refine ⟨?_, fun gamma => ?_, ?_, fun hn => absurd h hn⟩ <;>
      simp [AdditiveChi2.compute, Chi2.compute, Min.compute, h]
  · refine ⟨?_, fun gamma => ?_, ?_, fun _ => ⟨?_, fun gamma => ?_, ?_⟩⟩ <;>
      simp [AdditiveChi2.compute, Chi2.compute, Min.compute, h]

/-- C2 witness: a negative entry makes Min fail with its domain error, and
all-non-negative inputs make AdditiveChi2 return the complete matrix. -/
theorem positive_kernels_domain_validation_witness :
    Min.compute (matOf [[-1, 2]]) (matOf [[1, 1]])
      = Except.error "Min kernel requires data to be strictly positive!" ∧
    AdditiveChi2.compute (matOf [[1, 2]]) (matOf [[2, 4]])
      = Except.ok (AdditiveChi2.mat (matOf [[1, 2]]) (matOf [[2, 4]])) := by
  constructor
  · have hneg : hasNeg (matOf [[-1, 2]]) := by
      refine ⟨0, by norm_num [matOf], 0, by norm_num [matOf], ?_⟩
      norm_num [matOf, List.getD]
    exact ((positive_kernels_domain_validation (matOf [[-1, 2]])
      (matOf [[1, 1]])).2.2.1).mpr (Or.inl hneg)
  · have hnn : ¬(hasNeg (matOf [[1, 2]]) ∨ hasNeg (matOf [[2, 4]])) := by
      rintro (⟨i, hi, k, hk, hlt⟩ | ⟨i, hi, k, hk, hlt⟩) <;>
        · simp only [matOf, List.headD_cons, List.length_cons, List.length_nil] at hi hk
          interval_cases i <;> interval_cases k <;>
            norm_num [matOf, List.getD] at hlt
    exact ((positive_kernels_domain_validation (matOf [[1, 2]])
      (matOf [[2, 4]])).2.2.2 hnn).1

/-- C9: for AdditiveChi2 and Chi2, passing the non-negativity validation does
not guard the per-column division: whenever both inputs are non-negative and
some column k has a zero in row i of the first input and row j of the second,
compute still returns the accumulated matrix (no error), while the denominator
x_k + y_k of the division executed for output entry (i,j) is zero — the IEEE
evaluation of that unguarded 0/0 is the non-finite NaN. -/
theorem chi2_zero_denominator_reachable :
    ∀ (A B : Mat) (i j k : ℕ),
      ¬hasNeg A → ¬hasNeg B → k < A.cols →
      A.entry i k = 0 → B.entry j k = 0 →
      AdditiveChi2.compute A B = Except.ok (AdditiveChi2.mat A B) ∧
      (∀ gamma : ℝ, Chi2.compute gamma A B = Except.ok (Chi2.mat gamma A B)) ∧
      A.entry i k + B.entry j k = 0 := by
  intro A B i j k hA hB _hk hx hy
  have hn : ¬(hasNeg A ∨ hasNeg B) := by rintro (h | h) <;> [exact hA h; exact hB h]
  refine ⟨?_, fun gamma => ?_, by rw [hx, hy]; ring⟩ <;>
    simp [AdditiveChi2.compute, Chi2.compute, hn]

/-- C9 witness: the all-zero 1×1 inputs pass validation, both kernels return
their accumulated matrix, and the executed division has denominator 0. -/
theorem chi2_zero_denominator_reachable_witness :
    AdditiveChi2.compute (matOf [[0]]) (matOf [[0]])
        = Except.ok (AdditiveChi2.mat (matOf [[0]]) (matOf [[0]])) ∧
      (∀ gamma : ℝ, Chi2.compute gamma (matOf [[0]]) (matOf [[0]])
        = Except.ok (Chi2.mat gamma (matOf [[0]]) (matOf [[0]]))) ∧
      (matOf [[0]]).entry 0 0 + (matOf [[0]]).entry 0 0 = 0 := by
  have hnn : ¬hasNeg (matOf [[0]]) := by
    rintro ⟨i, hi, k, hk, hlt⟩
    simp only [matOf, List.headD_cons, List.length_cons, List.length_nil] at hi hk
    interval_cases i <;> interval_cases k <;> norm_num [matOf, List.getD] at hlt
  exact chi2_zero_denominator_reachable (matOf [[0]]) (matOf [[0]]) 0 0 0
    hnn hnn (by norm_num [matOf]) (by norm_num [matOf, List.getD])
    (by norm_num [matOf, List.getD])

/-- C6: GeneralizedHistogramIntersection delegates to Min's column-wise
computation on the entrywise |·|^alpha transforms of its inputs and never hits
the domain error (the transformed entries are non-negative by construction);
on the concrete scenario it returns the matrix whose single entry is
min(2,1) + min(3,1) = 2. -/
theorem ghi_delegates_without_domain_error :
    (∀ (alpha : ℝ) (A B : Mat),
      GeneralizedHistogramIntersection.compute alpha A B
        = Except.ok (Min.mat (absPow alpha A) (absPow alpha B))) ∧
    GeneralizedHistogramIntersection.compute 1 (matOf [[-2, 3]]) (matOf [[1, -1]])
      = Except.ok
          (Min.mat (absPow 1 (matOf [[-2, 3]])) (absPow 1 (matOf [[1, -1]]))) ∧
    Min.mat (absPow 1 (matOf [[-2, 3]])) (absPow 1 (matOf [[1, -1]])) 0 0 = 2 := by
  have habs : ∀ (alpha : ℝ) (A : Mat), ¬hasNeg (absPow alpha A) := by
    rintro alpha A ⟨i, _, k, _, hlt⟩
    exact absurd hlt (not_lt.mpr (Real.rpow_nonneg (abs_nonneg _) _))
  have hmain : ∀ (alpha : ℝ) (A B : Mat),
      GeneralizedHistogramIntersection.compute alpha A B
        = Except.ok (Min.mat (absPow alpha A) (absPow alpha B)) := by
    intro alpha A B
    have hn : ¬(hasNeg (absPow alpha A) ∨ hasNeg (absPow alpha B)) := by
      rintro (h | h) <;> exact habs _ _ h
    simp [GeneralizedHistogramIntersection.compute, Min.compute, hn]
  refine ⟨hmain, hmain 1 _ _, ?_⟩
  simp [Min.mat, absPow, matOf, Finset.sum_range_succ, List.getD, Real.rpow_one]
  norm_num [min_def]

/-! Per-kernel symmetry lemmas, all under the hypothesis that the two inputs
have the same number of feature columns (the validity condition of the base
contract). -/

theorem exponential_symm (sigma : Option ℝ) (A B : Mat) (h : A.cols = B.cols)
    (i j : ℕ) :
    (Exponential.compute sigma A B).2 i j = (Exponential.compute sigma B A).2 j i := by
  show Real.exp (-Real.sqrt (euclidean_dist_matrix A B i j)
        / sigma.getD ((A.cols : ℝ)))
      = Real.exp (-Real.sqrt (euclidean_dist_matrix B A j i)
        / sigma.getD ((B.cols : ℝ)))
  rw [dist_symm A B h i j, h]

theorem cauchy_symm (sigma : Option ℝ) (A B : Mat) (h : A.cols = B.cols)
    (i j : ℕ) :
    (Cauchy.compute sigma A B).2 i j = (Cauchy.compute sigma B A).2 j i := by
  show 1 / (1 + euclidean_dist_matrix A B i j / sigma.getD ((A.cols : ℝ)))
      = 1 / (1 + euclidean_dist_matrix B A j i / sigma.getD ((B.cols : ℝ)))
  rw [dist_symm A B h i j, h]

theorem rationalQuadratic_symm (c : ℝ) (A B : Mat) (h : A.cols = B.cols)
    (i j : ℕ) :
    RationalQuadratic.compute c A B i j = RationalQuadratic.compute c B A j i := by
  show 1 - euclidean_dist_matrix A B i j / (euclidean_dist_matrix A B i j + c)
      = 1 - euclidean_dist_matrix B A j i / (euclidean_dist_matrix B A j i + c)
  rw [dist_symm A B h i j]

theorem inverseMultiquadratic_symm (c : ℝ) (A B : Mat) (h : A.cols = B.cols)
    (i j : ℕ) :
    InverseMultiquadratic.compute c A B i j
      = InverseMultiquadratic.compute c B A j i := by
  show 1 / Real.sqrt (euclidean_dist_matrix A B i j + c)
      = 1 / Real.sqrt (euclidean_dist_matrix B A j i + c)
  rw [dist_symm A B h i j]

theorem tStudent_symm (d : ℝ) (A B : Mat) (h : A.cols = B.cols) (i j : ℕ) :
    TStudent.compute d A B i j = TStudent.compute d B A j i := by
  show 1 / (1 + Real.sqrt (euclidean_dist_matrix A B i j) ^ d)
      = 1 / (1 + Real.sqrt (euclidean_dist_matrix B A j i) ^ d)
  rw [dist_symm A B h i j]

theorem log_symm (d : ℝ) (A B : Mat) (h : A.cols = B.cols) (i j : ℕ) :
    Log.compute d A B i j = Log.compute d B A j i := by
  show -Real.log (euclidean_dist_matrix A B i j ^ d / 2 + 1)
      = -Real.log (euclidean_dist_matrix B A j i ^ d / 2 + 1)
  rw [dist_symm A B h i j]

theorem power_symm (d : ℝ) (A B : Mat) (h : A.cols = B.cols) (i j : ℕ) :
    Power.compute d A B i j = Power.compute d B A j i := by
  show -euclidean_dist_matrix A B i j ^ d / 2
      = -euclidean_dist_matrix B A j i ^ d / 2
  rw [dist_symm A B h i j]

theorem anova_symm (sigma d : ℝ) (A B : Mat) (h : A.cols = B.cols) (i j : ℕ) :
    ANOVA.compute sigma d A B i j = ANOVA.compute sigma d B A j i := by
  unfold ANOVA.compute
  rw [h]
  refine Finset.sum_congr rfl fun k _ => ?_
  have hsq : (A.entry i k - B.entry j k) ^ 2 = (B.entry j k - A.entry i k) ^ 2 := by
    ring
  rw [hsq]

theorem additiveChi2_mat_symm (A B : Mat) (h : A.cols = B.cols) (i j : ℕ) :
    AdditiveChi2.mat A B i j = AdditiveChi2.mat B A j i := by
  unfold AdditiveChi2.mat
  rw [h]
  exact Finset.sum_congr rfl fun k _ => by ring

theorem chi2_mat_symm (gamma : ℝ) (A B : Mat) (h : A.cols = B.cols) (i j : ℕ) :
    Chi2.mat gamma A B i j = Chi2.mat gamma B A j i := by
  unfold Chi2.mat
  rw [h]
  congr 1
  congr 1
  exact Finset.sum_congr rfl fun k _ => by ring

theorem min_mat_symm (A B : Mat) (h : A.cols = B.cols) (i j : ℕ) :
    Min.mat A B i j = Min.mat B A j i := by
  unfold Min.mat
  rw [h]
  exact Finset.sum_congr rfl fun k _ => min_comm _ _

theorem additiveChi2_except_symm (A B : Mat) (h : A.cols = B.cols) (i j : ℕ) :
    Except.map (fun f => f i j) (AdditiveChi2.compute A B)
      = Except.map (fun g => g j i) (AdditiveChi2.compute B A) := by
  unfold AdditiveChi2.compute
  by_cases hn : hasNeg A ∨ hasNeg B
  · rw [if_pos hn, if_pos (Or.symm hn)]
    rfl
  · rw [if_neg hn, if_neg fun hc => hn (Or.symm hc)]
    simp only [Except.map]
    exact congrArg Except.ok (additiveChi2_mat_symm A B h i j)

theorem chi2_except_symm (gamma : ℝ) (A B : Mat) (h : A.cols = B.cols) (i j : ℕ) :
    Except.map (fun f => f i j) (Chi2.compute gamma A B)
      = Except.map (fun g => g j i) (Chi2.compute gamma B A) := by
  unfold Chi2.compute
  by_cases hn : hasNeg A ∨ hasNeg B
  · rw [if_pos hn, if_pos (Or.symm hn)]
    rfl
  · rw [if_neg hn, if_neg fun hc => hn (Or.symm hc)]
    simp only [Except.map]
    exact congrArg Except.ok (chi2_mat_symm gamma A B h i j)

theorem min_except_symm (A B : Mat) (h : A.cols = B.cols) (i j : ℕ) :
    Except.map (fun f => f i j) (Min.compute A B)
      = Except.map (fun g => g j i) (Min.compute B A) := by
  unfold Min.compute
  by_cases hn : hasNeg A ∨ hasNeg B
  · rw [if_pos hn, if_pos (Or.symm hn)]
    rfl
  · rw [if_neg hn, if_neg fun hc => hn (Or.symm hc)]
    simp only [Except.map]
    exact congrArg Except.ok (min_mat_symm A B h i j)

theorem ghi_except_symm (alpha : ℝ) (A B : Mat) (h : A.cols = B.cols) (i j : ℕ) :
    Except.map (fun f => f i j)
        (GeneralizedHistogramIntersection.compute alpha A B)
      = Except.map (fun g => g j i)
        (GeneralizedHistogramIntersection.compute alpha B A) :=
  min_except_symm (absPow alpha A) (absPow alpha B) h i j

/-- C7: every kernel in the catalog is symmetric: on inputs with the same
column count, compute(A,B)[i,j] = compute(B,A)[j,i] for every index pair (for
the domain-restricted kernels, the two computations also fail together);
consequently compute(A,A) equals its own transpose for every kernel. -/
theorem all_kernels_symmetric :
    (∀ (A B : Mat), A.cols = B.cols → ∀ i j : ℕ,
      (∀ sigma : Option ℝ,
        (Exponential.compute sigma A B).2 i j
            = (Exponential.compute sigma B A).2 j i ∧
        (Laplacian.compute sigma A B).2 i j
            = (Laplacian.compute sigma B A).2 j i ∧
        (Cauchy.compute sigma A B).2 i j = (Cauchy.compute sigma B A).2 j i) ∧
      (∀ c : ℝ,
        RationalQuadratic.compute c A B i j
            = RationalQuadratic.compute c B A j i ∧
        InverseMultiquadratic.compute c A B i j
            = InverseMultiquadratic.compute c B A j i) ∧
      (∀ d : ℝ,
        TStudent.compute d A B i j = TStudent.compute d B A j i ∧
        Log.compute d A B i j = Log.compute d B A j i ∧
        Power.compute d A B i j = Power.compute d B A j i) ∧
      (∀ sigma d : ℝ,
        ANOVA.compute sigma d A B i j = ANOVA.compute sigma d B A j i) ∧
      Except.map (fun f => f i j) (AdditiveChi2.compute A B)
          = Except.map (fun g => g j i) (AdditiveChi2.compute B A) ∧
      (∀ gamma : ℝ,
        Except.map (fun f => f i j) (Chi2.compute gamma A B)
          = Except.map (fun g => g j i) (Chi2.compute gamma B A)) ∧
      Except.map (fun f => f i j) (Min.compute A B)
          = Except.map (fun g => g j i) (Min.compute B A) ∧
      (∀ alpha : ℝ,
        Except.map (fun f => f i j)
            (GeneralizedHistogramIntersection.compute alpha A B)
          = Except.map (fun g => g j i)
            (GeneralizedHistogramIntersection.compute alpha B A))) ∧
    (∀ (A : Mat) (i j : ℕ),
      (∀ sigma : Option ℝ,
        (Exponential.compute sigma A A).2 i j
            = (Exponential.compute sigma A A).2 j i ∧
        (Laplacian.compute sigma A A).2 i j
            = (Laplacian.compute sigma A A).2 j i ∧
        (Cauchy.compute sigma A A).2 i j = (Cauchy.compute sigma A A).2 j i) ∧
      (∀ c : ℝ,
        RationalQuadratic.compute c A A i j
            = RationalQuadratic.compute c A A j i ∧
        InverseMultiquadratic.compute c A A i j
            = InverseMultiquadratic.compute c A A j i) ∧
      (∀ d : ℝ,
        TStudent.compute d A A i j = TStudent.compute d A A j i ∧
        Log.compute d A A i j = Log.compute d A A j i ∧
        Power.compute d A A i j = Power.compute d A A j i) ∧
      (∀ sigma d : ℝ,
        ANOVA.compute sigma d A A i j = ANOVA.compute sigma d A A j i) ∧
      Except.map (fun f => f i j) (AdditiveChi2.compute A A)
          = Except.map (fun g => g j i) (AdditiveChi2.compute A A) ∧
      (∀ gamma : ℝ,
        Except.map (fun f => f i j) (Chi2.compute gamma A A)
          = Except.map (fun g => g j i) (Chi2.compute gamma A A)) ∧
      Except.map (fun f => f i j) (Min.compute A A)
          = Except.map (fun g => g j i) (Min.compute A A) ∧
      (∀ alpha : ℝ,
        Except.map (fun f => f i j)
            (GeneralizedHistogramIntersection.compute alpha A A)
          = Except.map (fun g => g j i)
            (GeneralizedHistogramIntersection.compute alpha A A))) := by
  have main : ∀ (A B : Mat), A.cols = B.cols → ∀ i j : ℕ,
      (∀ sigma : Option ℝ,
        (Exponential.compute sigma A B).2 i j
            = (Exponential.compute sigma B A).2 j i ∧
        (Laplacian.compute sigma A B).2 i j
            = (Laplacian.compute sigma B A).2 j i ∧
        (Cauchy.compute sigma A B).2 i j = (Cauchy.compute sigma B A).2 j i) ∧
      (∀ c : ℝ,
        RationalQuadratic.compute c A B i j
            = RationalQuadratic.compute c B A j i ∧
        InverseMultiquadratic.compute c A B i j
            = InverseMultiquadratic.compute c B A j i) ∧
      (∀ d : ℝ,
        TStudent.compute d A B i j = TStudent.compute d B A j i ∧
        Log.compute d A B i j = Log.compute d B A j i ∧
        Power.compute d A B i j = Power.compute d B A j i) ∧
      (∀ sigma d : ℝ,
        ANOVA.compute sigma d A B i j = ANOVA.compute sigma d B A j i) ∧
      Except.map (fun f => f i j) (AdditiveChi2.compute A B)
          = Except.map (fun g => g j i) (AdditiveChi2.compute B A) ∧
      (∀ gamma : ℝ,
        Except.map (fun f => f i j) (Chi2.compute gamma A B)
          = Except.map (fun g => g j i) (Chi2.compute gamma B A)) ∧
      Except.map (fun f => f i j) (Min.compute A B)
          = Except.map (fun g => g j i) (Min.compute B A) ∧
      (∀ alpha : ℝ,
        Except.map (fun f => f i j)
            (GeneralizedHistogramIntersection.compute alpha A B)
          = Except.map (fun g => g j i)
            (GeneralizedHistogramIntersection.compute alpha B A)) := by
    intro A B h i j
    exact ⟨fun sigma => ⟨exponential_symm sigma A B h i j,
        exponential_symm sigma A B h i j, cauchy_symm sigma A B h i j⟩,
      fun c => ⟨rationalQuadratic_symm c A B h i j,
        inverseMultiquadratic_symm c A B h i j⟩,
      fun d => ⟨tStudent_symm d A B h i j, log_symm d A B h i j,
        power_symm d A B h i j⟩,
      fun sigma d => anova_symm sigma d A B h i j,
      additiveChi2_except_symm A B h i j,
      fun gamma => chi2_except_symm gamma A B h i j,
      min_except_symm A B h i j,
      fun alpha => ghi_except_symm alpha A B h i j⟩
  exact ⟨main, fun A i j => main A A rfl i j⟩

/-- C7 witness: the symmetry theorem applied at concrete 2-column inputs with
the column-count hypothesis discharged by rfl. -/
theorem all_kernels_symmetric_witness :
    RationalQuadratic.compute 1 (matOf [[0, 1]]) (matOf [[2, 3]]) 0 0
        = RationalQuadratic.compute 1 (matOf [[2, 3]]) (matOf [[0, 1]]) 0 0 ∧
      Except.map (fun f => f 0 0)
          (Min.compute (matOf [[0, 1]]) (matOf [[2, 3]]))
        = Except.map (fun g => g 0 0)
          (Min.compute (matOf [[2, 3]]) (matOf [[0, 1]])) :=
  ⟨((all_kernels_symmetric.1 (matOf [[0, 1]]) (matOf [[2, 3]]) rfl 0 0).2.1 1).1,
    (all_kernels_symmetric.1 (matOf [[0, 1]]) (matOf [[2, 3]]) rfl 0 0).2.2.2.2.2.2.1⟩

end Pykernels
